import Mathlib

/-!
Verification of the ParlAI training-loop script (`parlai/scripts/train_model.py`)
against its natural-language specification.  The Python code is shallowly
embedded: machine floats are modelled as rationals (`ℚ`), Python's
`float('inf')` thresholds as `Option ℚ` with `none` standing for infinity,
Python ints as `Int`/`Nat`, and file/dict state as explicit values.
-/

namespace TrainModel

/-! ## Thresholds and infinity (`TrainLoop.__init__`, lines 361-382)

Each configured interval `opt[x]` is kept when `> 0` and replaced by
`float('inf')` otherwise.  `none` models `float('inf')`; `geInf`/`gtInf`
model `x >= t` / `x > t` where `t` may be infinite and `x` is a finite
float. -/

/-- Embedding of `opt[x] if opt[x] > 0 else float('inf')`. -/
def thresholdOrInf (v : ℚ) : Option ℚ :=
  if v > 0 then some v else none

/-- Comparison `x >= t` for a finite float `x` and a possibly-infinite threshold `t`. -/
def geInf (x : ℚ) (t : Option ℚ) : Bool :=
  match t with
  | some t => decide (x ≥ t)
  | none => false

/-- Comparison `x > t` for a finite float `x` and a possibly-infinite threshold `t`. -/
def gtInf (x : ℚ) (t : Option ℚ) : Bool :=
  match t with
  | some t => decide (x > t)
  | none => false

/-! ## Stopping checks in `TrainLoop.train` (lines 671-681)

The loop body first checks `self._total_epochs >= self.max_num_epochs`
(calling `self.log()` once more, then breaking), and only afterwards
`train_time > self.max_train_time` (breaking with no extra log). -/

inductive StopAction where
  | stopWithLog
  | stopNoLog
  | noStop
deriving DecidableEq, Repr

/-- Number of extra `self.log()` calls made by the branch taken. -/
def stopActionLogs : StopAction → Nat
  | .stopWithLog => 1
  | .stopNoLog => 0
  | .noStop => 0

/-- The ordered stopping checks at the top of each `train` iteration. -/
def stopCheck (total_epochs : ℚ) (max_num_epochs : Option ℚ)
    (train_time : ℚ) (max_train_time : Option ℚ) : StopAction :=
  if geInf total_epochs max_num_epochs then .stopWithLog
  else if gtInf train_time max_train_time then .stopNoLog
  else .noStop

/-! ## The remaining per-iteration triggers (`TrainLoop.train`, lines 682-712) -/

/-- Check `log_time > self.log_every_n_secs` (line 682). -/
def logTrigger (log_time : ℚ) (log_every_n_secs : Option ℚ) : Bool :=
  gtInf log_time log_every_n_secs

/-- Check `validate_time > self.val_every_n_secs` (line 685). -/
def validTimeTrigger (validate_time : ℚ) (val_every_n_secs : Option ℚ) : Bool :=
  gtInf validate_time val_every_n_secs

/-- Check `self._total_epochs - self.last_valid_epoch >= self.val_every_n_epochs`
(lines 686-687). -/
def validEpochTrigger (total_epochs last_valid_epoch : ℚ)
    (val_every_n_epochs : Option ℚ) : Bool :=
  geInf (total_epochs - last_valid_epoch) val_every_n_epochs

/-- Check `self.save_time.time() > self.save_every_n_secs and opt.get('model_file')
and is_primary_worker()` (lines 701-705). -/
def saveTrigger (save_time : ℚ) (save_every_n_secs : Option ℚ)
    (has_model_file is_primary : Bool) : Bool :=
  gtInf save_time save_every_n_secs && has_model_file && is_primary

/-! ## Smart defaults for `--validation-metric-mode`
(`TrainLoop.__init__`, lines 384-390) -/

/-- The two metric-name sets and the final `None → 'max'` default, exactly as
the three statements at lines 385-390 leave `opt['validation_metric_mode']`. -/
def resolveValidationMetricMode (validation_metric : String)
    (validation_metric_mode : Option String) : String :=
  if validation_metric = "loss" ∨ validation_metric = "ppl" ∨
      validation_metric = "mean_rank" then "min"
  else if validation_metric = "accuracy" ∨ validation_metric = "hits@1" ∨
      validation_metric = "hits@5" ∨ validation_metric = "f1" ∨
      validation_metric = "bleu" then "max"
  else
    match validation_metric_mode with
    | none => "max"
    | some m => m

/-- Assignment `self.valid_optim = 1 if opt['validation_metric_mode'] == 'max' else -1`
(line 393). -/
def valid_optim (validation_metric_mode : String) : Int :=
  if validation_metric_mode = "max" then 1 else -1

/-! ## Distributed validation sharding (`TrainLoop.validate`, lines 482-486)

Line 482-484 compute a per-worker cap; line 486 then calls
`run_eval(self.valid_worlds, opt, 'valid', opt['validation_max_exs'])`,
passing the unsharded total.  Python `//`/`%` on ints with a positive
divisor agree with Lean's `Int` `/`/`%` (Euclidean). -/

/-- Computation `max_exs = opt['validation_max_exs'] // num_workers();
max_exs += int(opt['validation_max_exs'] % num_workers() < get_rank())`. -/
def validationShardCap (validation_max_exs nWorkers rank : Int) : Int :=
  validation_max_exs / nWorkers +
    (if validation_max_exs % nWorkers < rank then 1 else 0)

/-- The `max_exs` argument actually given to `run_eval` at line 486:
`opt['validation_max_exs']` itself, not the per-worker cap. -/
def validationEvalMaxExs (validation_max_exs : Int) : Int :=
  validation_max_exs

/-- An even share of `M` across `W` workers with the remainder going to the
lowest-ranked workers first, the division the specification describes. -/
def validationShardCapSpec (validation_max_exs nWorkers rank : Int) : Int :=
  validation_max_exs / nWorkers +
    (if rank < validation_max_exs % nWorkers then 1 else 0)

/-! ## `TrainLoop._compute_eta` (lines 574-597)

The method reads `self.opt.get('num_epochs', 0)` and
`self.opt.get('max_training_time', -1)`.  `opt` is modelled as the
association list of float-valued options; `setup_args` (lines 79-80)
defines `--num-epochs` (dest `num_epochs`) and `--max-train-time`
(dest `max_train_time`), so those are the keys present. -/

/-- Lookup `opt.get(key, default)` on a float-valued option dict. -/
def optGet (opt : List (String × ℚ)) (key : String) (dflt : ℚ) : ℚ :=
  match opt.lookup key with
  | some v => v
  | none => dflt

/-- The float-valued training-loop options as populated by `setup_args`:
the epoch budget is stored under `num_epochs` (line 79) and the wall-time
budget under `max_train_time` (line 80). -/
def trainOpt (num_epochs max_train_time : ℚ) : List (String × ℚ) :=
  [("num_epochs", num_epochs), ("max_train_time", max_train_time)]

/-- Embedding of `TrainLoop._compute_eta`: note it reads the key
`max_training_time` (line 591), not `max_train_time`. -/
def compute_eta (opt : List (String × ℚ))
    (epochs_completed time_elapsed : ℚ) : Option ℚ :=
  let max_epochs := optGet opt "num_epochs" 0
  let eta : Option ℚ :=
    if max_epochs > 0 ∧ epochs_completed > 0 then
      let epoch_progress := epochs_completed / max_epochs
      some ((1 - epoch_progress) * time_elapsed / epoch_progress)
    else none
  let max_training_time := optGet opt "max_training_time" (-1)
  if max_training_time > 0 then
    let time_left := max_training_time - time_elapsed
    match eta with
    | none => some time_left
    | some e => if time_left < e then some time_left else some e
  else eta

/-- The ETA the specification describes, as a function of the configured
epoch budget `E` and wall-time budget `T` (each "absent" when ≤ 0):
linear extrapolation from epoch progress, capped at `T - t`, the smaller
of the two when both exist, nothing when neither exists. -/
def compute_eta_spec (num_epochs max_train_time epochs_completed
    time_elapsed : ℚ) : Option ℚ :=
  let eta : Option ℚ :=
    if num_epochs > 0 ∧ epochs_completed > 0 then
      let epoch_progress := epochs_completed / num_epochs
      some ((1 - epoch_progress) * time_elapsed / epoch_progress)
    else none
  if max_train_time > 0 then
    let time_left := max_train_time - time_elapsed
    match eta with
    | none => some time_left
    | some e => if time_left < e then some time_left else some e
  else eta

/-! ## Validation bookkeeping (`TrainLoop.validate`, lines 508-549)

Each validation extracts `new_valid = valid_report[opt['validation_metric']]`
and compares `self.valid_optim * new_valid > self.valid_optim * self.best_valid`
(improvement when `self.best_valid is None` or the product comparison holds);
on improvement `best_valid := new_valid` and `impatience := 0`, otherwise
`impatience += 1`. -/

structure ValState where
  best_valid : Option ℚ
  impatience : Nat
deriving DecidableEq, Repr

/-- The improvement test at lines 514-517:
`self.best_valid is None or self.valid_optim * new_valid > self.valid_optim *
self.best_valid`. -/
def improves (optim : Int) (best_valid : Option ℚ) (new_valid : ℚ) : Bool :=
  match best_valid with
  | none => true
  | some b => decide ((optim : ℚ) * new_valid > (optim : ℚ) * b)

/-- State update performed by one call to `validate` on the
`best_valid`/`impatience` pair (lines 514-549). -/
def validateStep (optim : Int) (s : ValState) (new_valid : ℚ) : ValState :=
  if improves optim s.best_valid new_valid then
    { best_valid := some new_valid, impatience := 0 }
  else
    { best_valid := s.best_valid, impatience := s.impatience + 1 }

/-- A fresh `TrainLoop` starts with `self.best_valid = None` and
`self.impatience = 0` (lines 395, 401). -/
def initValState : ValState :=
  ⟨none, 0⟩

/-- Processing a sequence of validation metric values. -/
def runValidations (optim : Int) (vs : List ℚ) : ValState :=
  vs.foldl (validateStep optim) initValState

/-- Specification-side notion of improvement: the new value is strictly
better (in the configured direction) than every previously observed value;
vacuously true for the first validation. -/
def beatsAll (optim : Int) (pre : List ℚ) (v : ℚ) : Bool :=
  pre.all fun u => decide ((optim : ℚ) * u < (optim : ℚ) * v)

/-- The improvement flag of each validation in a sequence, judged against
the values that came before it. -/
def improveFlags (optim : Int) : List ℚ → List ℚ → List Bool
  | _, [] => []
  | pre, v :: rest =>
    beatsAll optim pre v :: improveFlags optim (pre ++ [v]) rest

/-- The count of consecutive non-improving validations since the last
improvement (or since the start): the length of the maximal all-false
suffix of the improvement flags. -/
def trailingNonImproving (optim : Int) (vs : List ℚ) : Nat :=
  ((improveFlags optim [] vs).reverse.takeWhile (fun b => b == false)).length

/-! ## Train-stats persistence

`TrainLoop._save_train_stats` (lines 446-463) writes a JSON object with
keys `train_time`, `total_epochs` (the preempted offset plus
`num_workers() * world.get_total_epochs()`), `impatience` and
`valid_reports`; `TrainLoop.__init__` (lines 407-418) reads them back via
`obj.get` with defaults `0`, `0`, `0`, `[]`. -/

/-- A values-only validation report snapshot (`_values_only`, line 465-466). -/
def Report := List (String × ℚ)
deriving DecidableEq, Repr

/-- The JSON values appearing in a `.trainstats` file. -/
inductive JValue where
  | num (q : ℚ)
  | int (n : Int)
  | reports (rs : List Report)
deriving DecidableEq, Repr

/-- Lookup `obj.get(key, default)` on a parsed JSON object. -/
def jGet (obj : List (String × JValue)) (key : String) (dflt : JValue) :
    JValue :=
  match obj.lookup key with
  | some v => v
  | none => dflt

/-- The JSON object written by `_save_train_stats` (lines 451-463). -/
def saveTrainStats (train_time preempted_epochs numWorkers
    world_total_epochs : ℚ) (impatience : Int) (valid_reports : List Report) :
    List (String × JValue) :=
  [("train_time", .num train_time),
   ("total_epochs", .num (preempted_epochs + numWorkers * world_total_epochs)),
   ("impatience", .int impatience),
   ("valid_reports", .reports valid_reports)]

/-- The four fields recovered at `TrainLoop.__init__` (lines 413-418):
`_preempted_epochs`, `train_time.total`, `impatience`, `valid_reports`,
in that order, each via `obj.get` with its default. -/
def loadTrainStats (obj : List (String × JValue)) :
    JValue × JValue × JValue × JValue :=
  (jGet obj "total_epochs" (.int 0),
   jGet obj "train_time" (.int 0),
   jGet obj "impatience" (.int 0),
   jGet obj "valid_reports" (.reports []))

/-! ## Evaluation worlds and `_run_single_eval` (lines 242-258)

Modelled from the spec: the task/world collaborator (§6) is external to
this file's source; it exposes `epoch_done()`, `parley()`, `reset()`,
`report()` and a `batchsize` option.  A world is modelled by the length of
one evaluation pass (`epochLen` parleys until `epoch_done()`), its
batchsize, and its current position; `reset()` rewinds the position and
`report()` summarizes the examples seen this pass. -/

structure EvalWorld where
  epochLen : Nat
  batchsize : Nat
  pos : Nat
deriving DecidableEq, Repr

/-- Predicate `valid_world.epoch_done()`. -/
def epoch_done (w : EvalWorld) : Bool :=
  decide (w.epochLen ≤ w.pos)

/-- Step `valid_world.parley()`. -/
def parley (w : EvalWorld) : EvalWorld :=
  { w with pos := w.pos + 1 }

/-- Operation `valid_world.reset()`. -/
def wreset (w : EvalWorld) : EvalWorld :=
  { w with pos := 0 }

/-- Report `valid_world.report()`: the number of parleys of the current pass. -/
def wreport (w : EvalWorld) : Nat :=
  w.pos

/-- The `while not valid_world.epoch_done() and cnt < max_cnt` loop of
`_run_single_eval` (lines 246-253), with
`max_cnt = max_exs if max_exs > 0 else float('inf')` folded into the
condition and `cnt += valid_world.opt['batchsize']` each iteration. -/
def evalLoop (max_exs : ℚ) (w : EvalWorld) (cnt : Nat) : EvalWorld × Nat :=
  if _h : epoch_done w = false ∧ (max_exs ≤ 0 ∨ (cnt : ℚ) < max_exs) then
    evalLoop max_exs (parley w) (cnt + w.batchsize)
  else (w, cnt)
termination_by w.epochLen - w.pos
decreasing_by
  simp only [epoch_done, decide_eq_false_iff_not, not_le, parley] at *
  omega

/-- Function `_run_single_eval(opt, valid_world, max_exs)`: reset, run the bounded
loop, take the report, reset again; returns the report and the final
world. -/
def _run_single_eval (max_exs : ℚ) (w : EvalWorld) : Nat × EvalWorld :=
  let w0 := wreset w
  let r := evalLoop max_exs w0 0
  (wreport r.1, wreset r.1)

/-- Modelled from the spec: `aggregate_named_reports` (§4.2) lives in
`parlai.core.metrics`, outside this file; count/sum-like metrics add, so
the per-world example-count reports combine by summation. -/
def aggregateReports (rs : List Nat) : Nat :=
  rs.sum

/-- Function `run_eval(valid_worlds, opt, datatype, max_exs, write_log)`
(lines 261-302).  `valid_worlds is None` returns `None`; each world is
evaluated with cap `max_exs / len(valid_worlds)` (Python true division);
then, when `write_log and opt.get('model_file')`, the summary line is
appended with a bare `open`/`write`/`close` (lines 296-300) carrying no
exception handler, so a failing write (modelled by `writeOk = false`)
escapes as an error and the report is not returned. -/
def run_eval (valid_worlds : Option (List EvalWorld))
    (model_file : Option String) (max_exs : ℚ) (write_log writeOk : Bool) :
    Except Unit (Option Nat) :=
  match valid_worlds with
  | none => .ok none
  | some ws =>
    let reports := ws.map fun w => (_run_single_eval (max_exs / ws.length) w).1
    let report := aggregateReports reports
    if write_log && model_file.isSome then
      if writeOk then .ok (some report) else .error ()
    else .ok (some report)

/-! ## `TrainLoop.save_model` (lines 423-444)

The save runs `while True: try: agent.save(fn); self._save_train_stats(suffix);
break; except KeyboardInterrupt: pass`.  One loop iteration is modelled by
the outcome of its attempt: success, a `KeyboardInterrupt` raised mid-save,
or any other exception (which the `except` clause does not catch). -/

inductive AttemptOutcome where
  | success
  | interrupt
  | otherError
deriving DecidableEq, Repr

inductive SaveResult where
  /-- The `break` was reached after `retries` swallowed interrupts. -/
  | completed (retries : Nat)
  /-- An exception propagated out of the loop after `retries` swallowed
  interrupts. -/
  | raised (e : AttemptOutcome) (retries : Nat)
  /-- Method `save_model` returned before attempting any save. -/
  | skipped
  /-- The (finite) attempt trace ended with the loop still retrying. -/
  | exhausted
deriving DecidableEq, Repr

/-- The `while True` retry loop, driven by the trace of attempt outcomes. -/
def saveLoop : List AttemptOutcome → SaveResult
  | [] => .exhausted
  | .success :: _ => .completed 0
  | .interrupt :: rest =>
    match saveLoop rest with
    | .completed k => .completed (k + 1)
    | .raised e k => .raised e (k + 1)
    | r => r
  | .otherError :: _ => .raised .otherError 0

/-- Method `TrainLoop.save_model`: returns immediately on a non-primary worker
(lines 427-429) or without a model file (lines 430-432), otherwise runs
the retry loop. -/
def save_model (is_primary : Bool) (model_file : Option String)
    (attempts : List AttemptOutcome) : SaveResult :=
  if is_primary = false then .skipped
  else
    match model_file with
    | none => .skipped
    | some _ => saveLoop attempts

/-! ## Theorems -/

/-- Strict improvement as the specification words it: the first validation
(no prior best) always improves; otherwise the new value must be strictly
better than the best in the configured direction. -/
def StrictlyImproves (optim : Int) (best_valid : Option ℚ) (new_valid : ℚ) :
    Prop :=
  match best_valid with
  | none => True
  | some b => (optim : ℚ) * new_valid > (optim : ℚ) * b

theorem improves_iff_strictlyImproves (optim : Int) (best : Option ℚ)
    (v : ℚ) : improves optim best v = true ↔ StrictlyImproves optim best v := by
  cases best <;> simp [improves, StrictlyImproves]

theorem improveFlags_append (optim : Int) (pre ys : List ℚ) (v : ℚ) :
    improveFlags optim pre (ys ++ [v]) =
      improveFlags optim pre ys ++ [beatsAll optim (pre ++ ys) v] := by
  induction ys generalizing pre with
  | nil => simp [improveFlags]
  | cons y t iht =>
    simp only [List.cons_append, improveFlags, List.append_eq]
    rw [iht (pre ++ [y])]
    simp [List.append_assoc]

theorem trailingNonImproving_append (optim : Int) (ys : List ℚ) (v : ℚ) :
    trailingNonImproving optim (ys ++ [v]) =
      if beatsAll optim ys v then 0 else trailingNonImproving optim ys + 1 := by
  unfold trailingNonImproving
  rw [improveFlags_append, List.nil_append, List.reverse_append]
  cases hb : beatsAll optim ys v <;>
    simp [List.takeWhile_cons, hb]

theorem runValidations_append (optim : Int) (ys : List ℚ) (v : ℚ) :
    runValidations optim (ys ++ [v]) =
      validateStep optim (runValidations optim ys) v := by
  simp [runValidations, List.foldl_append]

/-- Invariant of `runValidations`: the impatience counter is the trailing
non-improving count, and `best_valid` is `none` exactly for the empty
history and otherwise a direction-wise upper bound realized in the
history. -/
theorem runValidations_inv (optim : Int) (vs : List ℚ) :
    ((runValidations optim vs).impatience = trailingNonImproving optim vs)
    ∧ ((runValidations optim vs).best_valid = none ↔ vs = [])
    ∧ (∀ m, (runValidations optim vs).best_valid = some m →
        m ∈ vs ∧ ∀ u ∈ vs, (optim : ℚ) * u ≤ (optim : ℚ) * m) := by
  induction vs using List.reverseRecOn with
  | nil =>
    refine ⟨rfl, by simp [runValidations, initValState], ?_⟩
    intro m hm
    simp [runValidations, initValState] at hm
  | append_singleton ys v ih =>
    obtain ⟨ihImp, ihNone, ihBest⟩ := ih
    have hkey : improves optim (runValidations optim ys).best_valid v =
        beatsAll optim ys v := by
      cases hb : (runValidations optim ys).best_valid with
      | none =>
        have hys : ys = [] := ihNone.mp hb
        subst hys
        simp [improves, beatsAll]
      | some m =>
        obtain ⟨hmem, hub⟩ := ihBest m hb
        rw [Bool.eq_iff_iff]
        simp only [improves, decide_eq_true_eq, beatsAll, List.all_eq_true,
          decide_eq_true_eq]
        constructor
        · intro hv u hu
          exact lt_of_le_of_lt (hub u hu) hv
        · intro hall
          exact hall m hmem
    rw [runValidations_append, trailingNonImproving_append]
    cases hc : beatsAll optim ys v with
    | true =>
      have himp : improves optim (runValidations optim ys).best_valid v =
          true := by rw [hkey, hc]
      refine ⟨?_, ?_, ?_⟩
      · simp [validateStep, himp]
      · simp [validateStep, himp]
      · intro m hm
        simp only [validateStep, himp, if_true] at hm
        obtain rfl : v = m := by simpa using hm
        refine ⟨by simp, ?_⟩
        intro u hu
        rcases List.mem_append.mp hu with hu | hu
        · have := List.all_eq_true.mp hc u hu
          have hlt : (optim : ℚ) * u < (optim : ℚ) * v := by simpa using this
          exact le_of_lt hlt
        · obtain rfl : u = v := by simpa using hu
          exact le_refl _
    | false =>
      have himp : improves optim (runValidations optim ys).best_valid v =
          false := by rw [hkey, hc]
      have hysne : ys ≠ [] := by
        intro h
        subst h
        simp [beatsAll] at hc
      refine ⟨?_, ?_, ?_⟩
      · simp [validateStep, himp, ihImp]
      · simp only [validateStep, himp, Bool.false_eq_true, if_false]
        constructor
        · intro h
          exact absurd (ihNone.mp h) hysne
        · intro h
          exact absurd h (by simp)
      · intro m hm
        simp only [validateStep, himp, Bool.false_eq_true, if_false] at hm
        obtain ⟨hmem, hub⟩ := ihBest m hm
        refine ⟨List.mem_append.mpr (Or.inl hmem), ?_⟩
        intro u hu
        rcases List.mem_append.mp hu with hu | hu
        · exact hub u hu
        · have huv : u = v := by simpa using hu
          rw [huv]
          have h2 : improves optim (some m) v = false := by
            rw [← hm, hkey, hc]
          have : ¬ ((optim : ℚ) * v > (optim : ℚ) * m) := by
            simpa [improves] using h2
          exact le_of_not_lt this

/-- Claim C1: on every validation, `impatience` is reset to exactly 0 when
the metric value strictly improves on `best_valid` under the configured
direction (the first validation, with no prior best, always improves) and
is incremented by exactly 1 otherwise; `best_valid` is updated if and only
if the value strictly improves; and after processing any sequence of
validation outcomes from a fresh loop, `impatience` equals the count of
consecutive non-improving validations since the last improvement (or since
the start). -/
theorem validate_impatience_best_valid (mode : String) (vs : List ℚ)
    (s : ValState) (v : ℚ) :
    ((runValidations (valid_optim mode) vs).impatience =
        trailingNonImproving (valid_optim mode) vs)
    ∧ (StrictlyImproves (valid_optim mode) none v)
    ∧ (StrictlyImproves (valid_optim mode) s.best_valid v →
        validateStep (valid_optim mode) s v = ⟨some v, 0⟩)
    ∧ (¬ StrictlyImproves (valid_optim mode) s.best_valid v →
        validateStep (valid_optim mode) s v =
          ⟨s.best_valid, s.impatience + 1⟩) := by
  refine ⟨(runValidations_inv (valid_optim mode) vs).1, trivial, ?_, ?_⟩
  · intro h
    have himp : improves (valid_optim mode) s.best_valid v = true :=
      (improves_iff_strictlyImproves _ _ _).mpr h
    simp [validateStep, himp]
  · intro h
    have himp : improves (valid_optim mode) s.best_valid v = false := by
      rcases hb : improves (valid_optim mode) s.best_valid v with _ | _
      · rfl
      · exact absurd ((improves_iff_strictlyImproves _ _ _).mp hb) h
    simp [validateStep, himp]

/-- Witness for C1 at a concrete improving and a concrete non-improving
step: with direction `max`, value 2 strictly improves on best 1 and resets
impatience from 3 to 0, while value 1 does not improve on best 2 and bumps
impatience from 3 to 4. -/
theorem validate_impatience_best_valid_witness :
    StrictlyImproves (valid_optim "max") (some 1) 2
    ∧ validateStep (valid_optim "max") ⟨some 1, 3⟩ 2 = ⟨some 2, 0⟩
    ∧ ¬ StrictlyImproves (valid_optim "max") (some 2) 1
    ∧ validateStep (valid_optim "max") ⟨some 2, 3⟩ 1 = ⟨some 2, 4⟩ := by
  have h1 : StrictlyImproves (valid_optim "max") (some 1) 2 := by
    simp [StrictlyImproves, valid_optim]
  have h2 : ¬ StrictlyImproves (valid_optim "max") (some 2) 1 := by
    simp [StrictlyImproves, valid_optim]
  exact ⟨h1,
    (validate_impatience_best_valid "max" [] ⟨some 1, 3⟩ 2).2.2.1 h1,
    h2,
    (validate_impatience_best_valid "max" [] ⟨some 2, 3⟩ 1).2.2.2 h2⟩

/-- Claim C2 (code evaluated at the failing input): with 4 workers and
`validation_max_exs = 10`, lines 482-484 produce per-worker caps
`{2, 2, 2, 3}` for ranks `{0, 1, 2, 3}` (summing to 9, not 10), whereas
the even split the specification describes yields `{3, 3, 2, 2}`; and
line 486 then passes the full `validation_max_exs = 10`, not the
per-worker cap, to `run_eval`. -/
theorem validation_sharding_failing_input :
    (validationShardCap 10 4 0 = 2 ∧ validationShardCap 10 4 1 = 2 ∧
      validationShardCap 10 4 2 = 2 ∧ validationShardCap 10 4 3 = 3)
    ∧ validationShardCap 10 4 0 + validationShardCap 10 4 1 +
        validationShardCap 10 4 2 + validationShardCap 10 4 3 = 9
    ∧ (validationShardCapSpec 10 4 0 = 3 ∧ validationShardCapSpec 10 4 1 = 3 ∧
        validationShardCapSpec 10 4 2 = 2 ∧ validationShardCapSpec 10 4 3 = 2)
    ∧ validationEvalMaxExs 10 = 10 := by
  decide

theorem optGet_trainOpt_num_epochs (ne mtt d : ℚ) :
    optGet (trainOpt ne mtt) "num_epochs" d = ne := rfl

theorem optGet_trainOpt_max_training_time (ne mtt d : ℚ) :
    optGet (trainOpt ne mtt) "max_training_time" d = d := rfl

/-- Claim C3 (code evaluated at the failing input): `_compute_eta` reads
the nonexistent option key `max_training_time` (the configured key is
`max_train_time`), so its result never depends on the configured wall-time
budget; concretely with `num_epochs = 2`, `max_train_time = 110`,
`epochs_completed = 1`, `time_elapsed = 100` the code returns 100 while
the specified behavior returns `min(100, 110 - 100) = 10`. -/
theorem compute_eta_ignores_time_budget :
    (∀ ne mtt mtt2 ec t : ℚ,
        compute_eta (trainOpt ne mtt) ec t =
          compute_eta (trainOpt ne mtt2) ec t)
    ∧ compute_eta (trainOpt 2 110) 1 100 = some 100
    ∧ compute_eta_spec 2 110 1 100 = some 10 := by
  refine ⟨fun ne mtt mtt2 ec t => ?_, ?_, ?_⟩
  · simp only [compute_eta, optGet_trainOpt_num_epochs,
      optGet_trainOpt_max_training_time]
  · norm_num [compute_eta, optGet_trainOpt_num_epochs,
      optGet_trainOpt_max_training_time]
  · norm_num [compute_eta_spec]

/-- Claim C4: the stopping checks at the top of each training iteration
run in a fixed order with the first true one winning: when
`total_epochs >= max_num_epochs` the loop emits exactly one more log entry
and stops (regardless of the time check); otherwise when
`train_time > max_train_time` it stops immediately with no extra log
entry; when neither holds it does not stop. -/
theorem train_stop_check_order (te : ℚ) (me : Option ℚ) (tt : ℚ)
    (mt : Option ℚ) :
    (geInf te me = true →
      stopCheck te me tt mt = .stopWithLog ∧
        stopActionLogs (stopCheck te me tt mt) = 1)
    ∧ (geInf te me = false → gtInf tt mt = true →
      stopCheck te me tt mt = .stopNoLog ∧
        stopActionLogs (stopCheck te me tt mt) = 0)
    ∧ (geInf te me = false → gtInf tt mt = false →
      stopCheck te me tt mt = .noStop) := by
  refine ⟨fun h1 => ?_, fun h1 h2 => ?_, fun h1 h2 => ?_⟩ <;>
    simp [stopCheck, stopActionLogs, h1]
  · simp [h2]
  · simp [h2]

/-- Witness for C4: with epochs 5 ≥ budget 3 the epoch check wins and logs
once even though the time check 10 > 1 is also true; with epochs below
budget the time check stops without logging. -/
theorem train_stop_check_order_witness :
    stopCheck 5 (some 3) 10 (some 1) = .stopWithLog
    ∧ stopCheck 1 (some 3) 10 (some 1) = .stopNoLog := by
  refine ⟨((train_stop_check_order 5 (some 3) 10 (some 1)).1 (by decide)).1,
    ((train_stop_check_order 1 (some 3) 10 (some 1)).2.1 (by decide)
      (by decide)).1⟩

/-- Claim C8: writing the training stats as `_save_train_stats` does and
reading them back as `TrainLoop.__init__` does reproduces exactly the four
persisted fields: total epochs (the preempted offset plus
`num_workers() * world.get_total_epochs()`), elapsed train time,
impatience, and the validation history. -/
theorem train_stats_round_trip (tt pe nw we : ℚ) (imp : Int)
    (vr : List Report) :
    loadTrainStats (saveTrainStats tt pe nw we imp vr) =
      (.num (pe + nw * we), .num tt, .int imp, .reports vr) := rfl

/-- Claim C9: `TrainLoop.__init__` forces the validation optimization
direction from the metric name, overriding any user-supplied mode: the
metrics `loss`, `ppl`, `mean_rank` force `min`; `accuracy`, `hits@1`,
`hits@5`, `f1`, `bleu` force `max`; any other metric with no mode
specified defaults to `max`. -/
theorem validation_metric_mode_defaults (metric : String)
    (userMode : Option String) :
    ((metric = "loss" ∨ metric = "ppl" ∨ metric = "mean_rank") →
      resolveValidationMetricMode metric userMode = "min")
    ∧ ((metric = "accuracy" ∨ metric = "hits@1" ∨ metric = "hits@5" ∨
        metric = "f1" ∨ metric = "bleu") →
      resolveValidationMetricMode metric userMode = "max")
    ∧ (metric ∉ ["loss", "ppl", "mean_rank", "accuracy", "hits@1", "hits@5",
        "f1", "bleu"] →
      resolveValidationMetricMode metric none = "max") := by
  refine ⟨fun h => ?_, fun h => ?_, fun h => ?_⟩
  · rw [resolveValidationMetricMode.eq_def, if_pos h]
  · rcases h with h | h | h | h | h <;> subst h <;>
      simp [resolveValidationMetricMode]
  · simp only [List.mem_cons, List.not_mem_nil, or_false, not_or] at h
    obtain ⟨h1, h2, h3, h4, h5, h6, h7, h8⟩ := h
    simp [resolveValidationMetricMode, h1, h2, h3, h4, h5, h6, h7, h8]

/-- Witness for C9: `loss` forces `min` even when the user asked for
`max`; `bleu` forces `max` even when the user asked for `min`; the
unknown metric `rouge` with no mode defaults to `max`. -/
theorem validation_metric_mode_defaults_witness :
    resolveValidationMetricMode "loss" (some "max") = "min"
    ∧ resolveValidationMetricMode "bleu" (some "min") = "max"
    ∧ resolveValidationMetricMode "rouge" none = "max" :=
  ⟨(validation_metric_mode_defaults "loss" (some "max")).1 (Or.inl rfl),
   (validation_metric_mode_defaults "bleu" (some "min")).2.1
     (Or.inr (Or.inr (Or.inr (Or.inr rfl)))),
   (validation_metric_mode_defaults "rouge" none).2.2 (by decide)⟩

theorem thresholdOrInf_nonpos {v : ℚ} (hv : v ≤ 0) :
    thresholdOrInf v = none := by
  simp [thresholdOrInf, not_lt.mpr hv]

/-- Claim C10: each of the six interval/budget options that is ≤ 0 is
mapped by `TrainLoop.__init__` to `float('inf')`, and the comparison
guarding the associated stop/log/validate/checkpoint action is then false
for every finite runtime value, so that action can never fire: the
epoch-budget stop, the wall-time stop, the periodic log, the time-based
and epoch-based validation triggers, and the periodic checkpoint. -/
theorem nonpositive_thresholds_never_fire (v : ℚ) (hv : v ≤ 0) :
    (∀ te tt mt, stopCheck te (thresholdOrInf v) tt mt ≠ .stopWithLog)
    ∧ (∀ te me tt, stopCheck te me tt (thresholdOrInf v) ≠ .stopNoLog)
    ∧ (∀ x, logTrigger x (thresholdOrInf v) = false)
    ∧ (∀ x, validTimeTrigger x (thresholdOrInf v) = false)
    ∧ (∀ e le, validEpochTrigger e le (thresholdOrInf v) = false)
    ∧ (∀ x p q, saveTrigger x (thresholdOrInf v) p q = false) := by
  rw [thresholdOrInf_nonpos hv]
  refine ⟨fun te tt mt => ?_, fun te me tt => ?_, fun x => rfl, fun x => rfl,
    fun e le => rfl, fun x p q => ?_⟩
  · cases h : gtInf tt mt <;> simp [stopCheck, geInf, h]
  · cases h : geInf te me <;> simp [stopCheck, gtInf, h]
  · simp [saveTrigger, gtInf]

/-- Witness for C10 at the boundary value 0: with every threshold
configured as 0 (hence infinite), no trigger fires at runtime values 5. -/
theorem nonpositive_thresholds_never_fire_witness :
    stopCheck 5 (thresholdOrInf 0) 5 (some 1) ≠ .stopWithLog
    ∧ stopCheck 5 none 5 (thresholdOrInf 0) ≠ .stopNoLog
    ∧ logTrigger 5 (thresholdOrInf 0) = false
    ∧ validTimeTrigger 5 (thresholdOrInf 0) = false
    ∧ validEpochTrigger 5 1 (thresholdOrInf 0) = false
    ∧ saveTrigger 5 (thresholdOrInf 0) true true = false := by
  obtain ⟨h1, h2, h3, h4, h5, h6⟩ :=
    nonpositive_thresholds_never_fire 0 le_rfl
  exact ⟨h1 5 5 (some 1), h2 5 none 5, h3 5, h4 5, h5 5 1, h6 5 true true⟩

theorem saveLoop_replicate_interrupts (n : Nat)
    (rest : List AttemptOutcome) :
    saveLoop (List.replicate n .interrupt ++ .success :: rest) =
      .completed n := by
  induction n with
  | zero => rfl
  | succ k ih => simp [List.replicate_succ, saveLoop, ih]

theorem saveLoop_never_raises_interrupt (attempts : List AttemptOutcome) :
    ∀ k, saveLoop attempts ≠ .raised .interrupt k := by
  induction attempts with
  | nil => intro k; simp [saveLoop]
  | cons a rest ih =>
    intro k
    cases a with
    | success => simp [saveLoop]
    | interrupt =>
      simp only [saveLoop]
      cases hr : saveLoop rest with
      | completed j => simp
      | raised e j =>
        have he : e ≠ .interrupt := by
          intro h
          subst h
          exact ih j hr
        simp [he]
      | skipped => simp
      | exhausted => simp
    | otherError => simp [saveLoop]

/-- Claim C6: on the primary worker with a model file configured, each
`KeyboardInterrupt` raised during a save attempt is swallowed and the save
is re-attempted; after any number of interrupted attempts followed by a
successful one, `save_model` completes, and `save_model` never terminates
by propagating the interrupt. -/
theorem save_model_retries_interrupts (mf : String) (n : Nat)
    (rest attempts : List AttemptOutcome) :
    save_model true (some mf)
        (List.replicate n .interrupt ++ .success :: rest) = .completed n
    ∧ (∀ k, save_model true (some mf) attempts ≠ .raised .interrupt k) := by
  constructor
  · simp [save_model, saveLoop_replicate_interrupts]
  · intro k
    simp only [save_model]
    simpa using saveLoop_never_raises_interrupt attempts k

/-- Witness for C6: two interrupted attempts followed by a success
complete the save with both interrupts swallowed, and an interrupted trace
never surfaces the interrupt. -/
theorem save_model_retries_interrupts_witness :
    save_model true (some "model")
        (List.replicate 2 .interrupt ++ .success :: []) = .completed 2
    ∧ save_model true (some "model") [.interrupt] ≠ .raised .interrupt 0 :=
  ⟨(save_model_retries_interrupts "model" 2 [] []).1,
   (save_model_retries_interrupts "model" 2 [] [.interrupt]).2 0⟩

/-- Counterexample to C5 as stated: at a concrete evaluation pass with a
model file configured and `write_log` requested, a failing append makes
`run_eval` raise to its caller instead of returning the evaluation
result. -/
theorem run_eval_write_failure_counterexample :
    run_eval (some [⟨4, 1, 0⟩]) (some "model") 10 true false = .error () :=
  rfl

/-- Claim C5 as amended: the append at lines 296-300 carries no exception
handler, so a failing write propagates to the caller and the evaluation
result is not returned; when the write succeeds, or no write is attempted
(no `write_log` or no model file), the aggregated result is returned. -/
theorem run_eval_write_failure_propagates (ws : List EvalWorld)
    (mf : Option String) (max_exs : ℚ) (write_log writeOk : Bool) :
    (mf.isSome = true → write_log = true → writeOk = false →
      run_eval (some ws) mf max_exs write_log writeOk = .error ())
    ∧ (write_log = false ∨ mf = none ∨ writeOk = true →
      run_eval (some ws) mf max_exs write_log writeOk =
        .ok (some (aggregateReports
          (ws.map fun w => (_run_single_eval (max_exs / ws.length) w).1)))) := by
  constructor
  · intro h1 h2 h3
    subst h2 h3
    simp [run_eval, h1]
  · intro h
    rcases h with h | h | h
    · subst h
      simp [run_eval]
    · subst h
      simp [run_eval]
    · subst h
      simp only [run_eval]
      split <;> rfl

/-- Witness for C5's amended statement: a concrete failing write raises,
and the same pass with a successful write returns the report. -/
theorem run_eval_write_failure_propagates_witness :
    run_eval (some [⟨2, 1, 0⟩]) (some "m") 4 true false = .error ()
    ∧ run_eval (some [⟨2, 1, 0⟩]) (some "m") 4 true true =
        .ok (some (aggregateReports
          ([⟨2, 1, 0⟩].map fun w =>
            (_run_single_eval ((4 : ℚ) / [(⟨2, 1, 0⟩ : EvalWorld)].length) w).1))) :=
  ⟨(run_eval_write_failure_propagates [⟨2, 1, 0⟩] (some "m") 4 true false).1
      rfl rfl rfl,
   (run_eval_write_failure_propagates [⟨2, 1, 0⟩] (some "m") 4 true true).2
      (Or.inr (Or.inr rfl))⟩

/-- Invariant of the `_run_single_eval` loop: running from world `w` with
running count `cnt`, the loop performs some `n` parleys, each taken only
while the pass was not complete and the count was under the cap, and it
stops exactly when the pass completes or (for a positive cap) the count
reaches the cap. -/
theorem evalLoop_inv (max_exs : ℚ) (w : EvalWorld) (cnt : Nat) :
    ∃ n : Nat,
      (evalLoop max_exs w cnt).1 = ⟨w.epochLen, w.batchsize, w.pos + n⟩
      ∧ (evalLoop max_exs w cnt).2 = cnt + n * w.batchsize
      ∧ (w.epochLen ≤ w.pos + n ∨
          (0 < max_exs ∧ max_exs ≤ ((cnt + n * w.batchsize : Nat) : ℚ)))
      ∧ (∀ j < n, w.pos + j < w.epochLen ∧
          (max_exs ≤ 0 ∨
            ((cnt : ℚ) + (j : ℚ) * (w.batchsize : ℚ) < max_exs))) := by
  by_cases hg : epoch_done w = false ∧ (max_exs ≤ 0 ∨ (cnt : ℚ) < max_exs)
  · rw [evalLoop, dif_pos hg]
    obtain ⟨n, h1, h2, h3, h4⟩ :=
      evalLoop_inv max_exs (parley w) (cnt + w.batchsize)
    simp only [parley] at h1 h2 h3 h4 ⊢
    have hpos : w.pos < w.epochLen := by
      have := hg.1
      simp only [epoch_done, decide_eq_false_iff_not, not_le] at this
      exact this
    refine ⟨n + 1, ?_, ?_, ?_, ?_⟩
    · rw [h1]
      simp only [EvalWorld.mk.injEq]
      exact ⟨trivial, trivial, by omega⟩
    · rw [h2]
      ring
    · have e2 : cnt + (n + 1) * w.batchsize =
          cnt + w.batchsize + n * w.batchsize := by ring
      rcases h3 with h3 | h3
      · left
        omega
      · refine Or.inr ⟨h3.1, ?_⟩
        rw [e2]
        exact h3.2
    · intro j hj
      cases j with
      | zero =>
        refine ⟨by omega, ?_⟩
        rcases hg.2 with h | h
        · exact Or.inl h
        · right
          push_cast
          linarith
      | succ i =>
        have hi : i < n := by omega
        obtain ⟨ha, hb⟩ := h4 i hi
        refine ⟨by omega, ?_⟩
        rcases hb with hb | hb
        · exact Or.inl hb
        · right
          push_cast at hb ⊢
          linarith
  · rw [evalLoop, dif_neg hg]
    rcases not_and_or.mp hg with h | h
    · have hdone : w.epochLen ≤ w.pos := by
        rcases hd : epoch_done w with _ | _
        · exact absurd hd h
        · simpa [epoch_done] using hd
      refine ⟨0, by simp, by simp, Or.inl (by omega), ?_⟩
      intro j hj
      omega
    · push_neg at h
      refine ⟨0, by simp, by simp, Or.inr ⟨h.1, ?_⟩, ?_⟩
      · have := h.2
        push_cast
        linarith
      · intro j hj
        omega
termination_by w.epochLen - w.pos
decreasing_by
  simp only [epoch_done, decide_eq_false_iff_not, not_le, parley] at *
  omega

/-- Claim C7: a single evaluation pass with `max_exs ≤ 0` is unbounded —
it parleys until the source signals its pass is complete and never stops
early on a count; with `max_exs > 0` it stops at the first point where
the cumulative example count (batchsize per parley) reaches `max_exs` or
the pass completes; and the source is reset both before the pass (the
result is independent of the incoming position) and after it (the
returned world is the reset one). -/
theorem run_single_eval_bounds (max_exs : ℚ) (w : EvalWorld) :
    (max_exs ≤ 0 → (_run_single_eval max_exs w).1 = w.epochLen)
    ∧ (0 < max_exs →
        ((_run_single_eval max_exs w).1 = w.epochLen ∨
          max_exs ≤ ((_run_single_eval max_exs w).1 : ℚ) * w.batchsize) ∧
        (∀ m < (_run_single_eval max_exs w).1,
          m < w.epochLen ∧ ((m : ℚ) * w.batchsize < max_exs)))
    ∧ ((_run_single_eval max_exs w).2 = wreset w)
    ∧ (∀ p, _run_single_eval max_exs { w with pos := p } =
        _run_single_eval max_exs w) := by
  obtain ⟨n, h1, h2, h3, h4⟩ := evalLoop_inv max_exs (wreset w) 0
  simp only [wreset, Nat.zero_add] at h1 h2 h3 h4
  have hrep : (_run_single_eval max_exs w).1 = n := by
    simp only [_run_single_eval, wreport, wreset]
    rw [h1]
  have hle : n ≤ w.epochLen := by
    by_contra hgt
    push_neg at hgt
    have := (h4 w.epochLen hgt).1
    omega
  refine ⟨?_, ?_, ?_, fun p => rfl⟩
  · intro hnp
    rw [hrep]
    rcases h3 with h3 | h3
    · omega
    · linarith [h3.1]
  · intro hpos
    constructor
    · rcases h3 with h3 | h3
      · left
        rw [hrep]
        omega
      · right
        rw [hrep]
        have := h3.2
        push_cast at this
        linarith
    · intro m hm
      rw [hrep] at hm
      obtain ⟨ha, hb⟩ := h4 m hm
      refine ⟨ha, ?_⟩
      rcases hb with hb | hb
      · linarith
      · push_cast at hb ⊢
        linarith
  · simp only [_run_single_eval, wreset]
    rw [h1]

/-- Witness for C7: an unbounded pass (`max_exs = -1`) over a source whose
pass is 3 parleys long performs exactly 3 parleys; and a pass capped at 5
examples with batchsize 2 stops with every earlier step under the cap. -/
theorem run_single_eval_bounds_witness :
    ((-1 : ℚ) ≤ 0 ∧ (_run_single_eval (-1) ⟨3, 2, 5⟩).1 = 3)
    ∧ ((0 : ℚ) < 5 ∧ (_run_single_eval 5 ⟨10, 2, 7⟩).2 = wreset ⟨10, 2, 7⟩) :=
  ⟨⟨by norm_num, (run_single_eval_bounds (-1) ⟨3, 2, 5⟩).1 (by norm_num)⟩,
   ⟨by norm_num, (run_single_eval_bounds 5 ⟨10, 2, 7⟩).2.2.1⟩⟩

end TrainModel
